import Mathlib

/-!
Verification development for the connect-rpc-rs repository: a shallow
embedding of the Connect RPC protocol layer (streaming frame codec,
request/response builders and accessors, error model) together with
theorems settling the specification claims.

Conventions of the embedding:
* Rust byte buffers (`Bytes`, `&[u8]`) are `List Nat`, each entry intended
  to be `< 256`.
* `usize` arithmetic is `Nat` guarded by an explicit platform bound `M`
  (the value of `usize::MAX`): `UMAX64 = 2^64 - 1` for 64-bit targets and
  `UMAX32 = 2^32 - 1` for 32-bit targets.
* Rust `Result` is `Except`, `Option` is `Option`.
* The frame parse loop in `FrameParseState::feed` is modelled with explicit
  fuel; a result of `none` means the loop did not finish within the given
  fuel (for every fuel amount, i.e. divergence, where proved).
-/

/-- Byte-stream item fed into the frame parser: a data chunk, an error from
the underlying stream, or end of stream (src/stream.rs: the stream is mapped
to `Some(Ok(..))`/`Some(Err(..))` and chained with one `None`). -/
inductive FeedItem where
  | data (chunk : List Nat)
  | err (msg : String)
  | eos
deriving Repr, DecidableEq

/-- src/stream.rs `ConnectFrame`: one decoded streaming envelope. -/
structure ConnectFrame where
  compressed : Bool
  end_ : Bool
  data : List Nat
deriving Repr, DecidableEq

/-- src/stream.rs `FLAGS_COMPRESSED: u8 = 0b1`. -/
def FLAGS_COMPRESSED : Nat := 1

/-- src/stream.rs `FLAGS_END: u8 = 0b01` (note: the same value as
`FLAGS_COMPRESSED`). -/
def FLAGS_END : Nat := 1

/-- Item emitted by the frame codec: a frame or an error. -/
inductive FrameItem where
  | frame (f : ConnectFrame)
  | error (msg : String)
deriving Repr, DecidableEq

/-- src/stream.rs `FrameParseState`: accumulation buffer plus failed flag. -/
structure FrameParseState where
  buf : List Nat
  failed : Bool
deriving Repr, DecidableEq

/-- Model of `FrameParseState::default()`. -/
def initState : FrameParseState := { buf := [], failed := false }

/-- Big-endian u32 read of bytes 1..5 of the buffer
(src/stream.rs line 81: `(&self.buf[1..]).get_u32()`). -/
def readLenBE (buf : List Nat) : Nat :=
  buf.getD 1 0 * 16777216 + buf.getD 2 0 * 65536 + buf.getD 3 0 * 256 + buf.getD 4 0

/-- src/stream.rs `FrameParseState::parse_frame`, with `M` the value of
`usize::MAX` on the target platform.  Returns `ok none` when more input is
needed, `ok (some (frame, rest))` when a frame was extracted (`rest` is the
remaining buffer), and `error` for the `frame too large` case (the failed
`((data_len as u64) + 5).try_into::<usize>()`). -/
def parseFrame (M : Nat) (buf : List Nat) : Except String (Option (ConnectFrame × List Nat)) :=
  if buf.length < 5 then .ok none
  else
    let data_len := readLenBE buf
    let frame_len := data_len + 5
    if M < frame_len then .error "frame too large"
    else if buf.length < frame_len then .ok none
    else
      .ok (some ({ compressed := buf.getD 0 0 &&& FLAGS_COMPRESSED != 0,
                   end_ := buf.getD 0 0 &&& FLAGS_END != 0,
                   data := (buf.take frame_len).drop 5 },
                 buf.drop frame_len))

/-- The `loop` in src/stream.rs `FrameParseState::feed` (lines 64-74), with
explicit fuel.  Faithful to the source: on `parse_frame` success the frame is
pushed and the loop continues; on `Ok(None)` the accumulated items are
returned; on `Err` the failed flag is set and the item pushed, but the loop
continues (there is no `return`/`break` in that arm). -/
def feedLoop (M : Nat) : Nat → FrameParseState → List FrameItem → Option (List FrameItem × FrameParseState)
  | 0, _, _ => none
  | fuel + 1, s, frames =>
    match parseFrame M s.buf with
    | .ok (some (f, rest)) => feedLoop M fuel { buf := rest, failed := s.failed } (frames ++ [.frame f])
    | .ok none => some (frames, s)
    | .error msg => feedLoop M fuel { buf := s.buf, failed := true } (frames ++ [.error msg])

/-- src/stream.rs `FrameParseState::feed` (lines 44-75). -/
def FrameParseState.feed (M fuel : Nat) (s : FrameParseState) (item : FeedItem) :
    Option (List FrameItem × FrameParseState) :=
  if s.failed then some ([], s)
  else
    match item with
    | .err msg => some ([.error msg], { buf := s.buf, failed := true })
    | .eos =>
      if s.buf.isEmpty then some ([], s)
      else some ([.error "partial frame at end of stream"], s)
    | .data chunk => feedLoop M fuel { buf := s.buf ++ chunk, failed := s.failed } []

/-- Sequential processing of feed items, concatenating the emitted items
(the `flat_map` in `ConnectFrame::bytes_stream`). -/
def runFeeds (M fuel : Nat) : FrameParseState → List FeedItem → Option (List FrameItem)
  | _, [] => some []
  | s, item :: rest =>
    match s.feed M fuel item with
    | none => none
    | some (out, s') => (runFeeds M fuel s' rest).map (fun tail => out ++ tail)

/-- src/stream.rs `ConnectFrame::bytes_stream`: feed each chunk, then end of
stream (`.map(Some).chain(stream::iter([None]))`). -/
def bytesStream (M fuel : Nat) (chunks : List (List Nat)) : Option (List FrameItem) :=
  runFeeds M fuel initState (chunks.map FeedItem.data ++ [FeedItem.eos])

/-- Value of `usize::MAX` on a 64-bit target. -/
def UMAX64 : Nat := 2 ^ 64 - 1

/-- Value of `usize::MAX` on a 32-bit target. -/
def UMAX32 : Nat := 2 ^ 32 - 1

/-- The items emitted at end of stream (the `None` arm of `feed`). -/
def eosItems (buf : List Nat) : List FrameItem :=
  if buf.isEmpty then [] else [.error "partial frame at end of stream"]

theorem parseFrame_spec {M : Nat} {buf : List Nat} {f : ConnectFrame} {rest : List Nat}
    (h : parseFrame M buf = Except.ok (some (f, rest))) :
    5 ≤ buf.length ∧ readLenBE buf + 5 ≤ M ∧ readLenBE buf + 5 ≤ buf.length ∧
      f = { compressed := buf.getD 0 0 &&& FLAGS_COMPRESSED != 0,
            end_ := buf.getD 0 0 &&& FLAGS_END != 0,
            data := (buf.take (readLenBE buf + 5)).drop 5 } ∧
      rest = buf.drop (readLenBE buf + 5) := by
  by_cases h5 : buf.length < 5
  · simp [parseFrame, h5] at h
  · by_cases hM : M < readLenBE buf + 5
    · simp [parseFrame, h5, hM] at h
    · by_cases hlen : buf.length < readLenBE buf + 5
      · simp [parseFrame, h5, hM, hlen] at h
      · simp only [parseFrame, if_neg h5, if_neg hM, if_neg hlen, Except.ok.injEq,
          Option.some.injEq, Prod.mk.injEq] at h
        exact ⟨by omega, by omega, by omega, h.1.symm, h.2.symm⟩

theorem parseFrame_eq_some {M : Nat} {buf : List Nat} (h5 : 5 ≤ buf.length)
    (hM : readLenBE buf + 5 ≤ M) (hlen : readLenBE buf + 5 ≤ buf.length) :
    parseFrame M buf = Except.ok (some
      ({ compressed := buf.getD 0 0 &&& FLAGS_COMPRESSED != 0,
         end_ := buf.getD 0 0 &&& FLAGS_END != 0,
         data := (buf.take (readLenBE buf + 5)).drop 5 },
       buf.drop (readLenBE buf + 5))) := by
  simp only [parseFrame, if_neg (by omega : ¬ buf.length < 5),
    if_neg (by omega : ¬ M < readLenBE buf + 5),
    if_neg (by omega : ¬ buf.length < readLenBE buf + 5)]

theorem parseFrame_rest_lt {M : Nat} {buf : List Nat} {f : ConnectFrame} {rest : List Nat}
    (h : parseFrame M buf = Except.ok (some (f, rest))) : rest.length < buf.length := by
  obtain ⟨h5, _, hlen, _, hr⟩ := parseFrame_spec h
  subst hr
  rw [List.length_drop]
  omega

theorem parseFrame_extend {M : Nat} {buf : List Nat} {f : ConnectFrame} {rest : List Nat}
    (h : parseFrame M buf = Except.ok (some (f, rest))) (c : List Nat) :
    parseFrame M (buf ++ c) = Except.ok (some (f, rest ++ c)) := by
  obtain ⟨h5, hM, hlen, hf, hr⟩ := parseFrame_spec h
  have hread : readLenBE (buf ++ c) = readLenBE buf := by
    unfold readLenBE
    rw [List.getD_append buf c 0 1 (by omega), List.getD_append buf c 0 2 (by omega),
      List.getD_append buf c 0 3 (by omega), List.getD_append buf c 0 4 (by omega)]
  have h0 : (buf ++ c).getD 0 0 = buf.getD 0 0 := List.getD_append buf c 0 0 (by omega)
  have htake : (buf ++ c).take (readLenBE buf + 5) = buf.take (readLenBE buf + 5) := by
    rw [List.take_append_eq_append_take, Nat.sub_eq_zero_of_le hlen]
    simp
  have hdrop : (buf ++ c).drop (readLenBE buf + 5) = buf.drop (readLenBE buf + 5) ++ c := by
    rw [List.drop_append_eq_append_drop, Nat.sub_eq_zero_of_le hlen]
    simp
  have key := fun a b d => @parseFrame_eq_some M (buf ++ c) a b d
  rw [hread] at key
  rw [key (by simp; omega) (by omega) (by simp; omega), h0, htake, hdrop, hf, hr]

theorem getD_lt_256 {buf : List Nat} (hb : ∀ b ∈ buf, b < 256) (i : Nat) : buf.getD i 0 < 256 := by
  rw [List.getD_eq_getElem?_getD]
  cases h : buf[i]? with
  | none => simp
  | some b =>
    have : b ∈ buf := List.getElem?_mem h
    simpa using hb b this

theorem readLenBE_le {buf : List Nat} (hb : ∀ b ∈ buf, b < 256) : readLenBE buf ≤ 2 ^ 32 - 1 := by
  have h1 := getD_lt_256 hb 1
  have h2 := getD_lt_256 hb 2
  have h3 := getD_lt_256 hb 3
  have h4 := getD_lt_256 hb 4
  unfold readLenBE
  omega

theorem parseFrame_no_error {M : Nat} {buf : List Nat} (hM : 2 ^ 32 + 4 ≤ M)
    (hb : ∀ b ∈ buf, b < 256) (msg : String) : parseFrame M buf ≠ Except.error msg := by
  have := readLenBE_le hb
  by_cases h5 : buf.length < 5
  · simp [parseFrame, h5]
  · by_cases hMlt : M < readLenBE buf + 5
    · omega
    · by_cases hlen : buf.length < readLenBE buf + 5
      · simp [parseFrame, h5, hMlt, hlen]
      · simp [parseFrame, h5, hMlt, hlen]

/-- Repeated frame extraction: all frames obtainable from `buf` and the
leftover buffer.  This is a proof device for relating `feedLoop` runs; it
is not itself part of the source embedding (the source loop is `feedLoop`). -/
def drain (M : Nat) (buf : List Nat) : List ConnectFrame × List Nat :=
  match h : parseFrame M buf with
  | .ok (some (f, rest)) =>
    let d := drain M rest
    (f :: d.1, d.2)
  | .ok none => ([], buf)
  | .error _ => ([], buf)
termination_by buf.length
decreasing_by exact parseFrame_rest_lt h

theorem drain_eq_some {M : Nat} {buf : List Nat} {f : ConnectFrame} {rest : List Nat}
    (h : parseFrame M buf = Except.ok (some (f, rest))) :
    drain M buf = (f :: (drain M rest).1, (drain M rest).2) := by
  rw [drain]
  split
  · rename_i f' rest' heq
    rw [h] at heq
    obtain ⟨h1, h2⟩ : f = f' ∧ rest = rest' := by
      simpa using heq
    subst h1
    subst h2
    rfl
  · rename_i heq
    rw [h] at heq
    simp at heq
  · rename_i msg heq
    rw [h] at heq
    simp at heq

theorem drain_eq_stop {M : Nat} {buf : List Nat}
    (h : parseFrame M buf = Except.ok none ∨ ∃ msg, parseFrame M buf = Except.error msg) :
    drain M buf = ([], buf) := by
  rw [drain]
  split
  · rename_i f' rest' heq
    rcases h with h | ⟨msg, h⟩ <;> rw [h] at heq <;> simp at heq
  · rfl
  · rfl

theorem drain_sublist_aux (M : Nat) : ∀ (n : Nat) (buf : List Nat), buf.length ≤ n →
    ((drain M buf).2).Sublist buf := by
  intro n
  induction n with
  | zero =>
    intro buf hb
    have hnil : buf = [] := List.eq_nil_of_length_eq_zero (by omega)
    subst hnil
    rw [drain_eq_stop (Or.inl (by simp [parseFrame]))]
  | succ k ih =>
    intro buf hb
    match hp : parseFrame M buf with
    | .ok (some (f, rest)) =>
      rw [drain_eq_some hp]
      have hlt := parseFrame_rest_lt hp
      have hdr : rest = buf.drop (readLenBE buf + 5) := (parseFrame_spec hp).2.2.2.2
      exact (ih rest (by omega)).trans (by rw [hdr]; exact List.drop_sublist _ _)
    | .ok none =>
      rw [drain_eq_stop (Or.inl hp)]
    | .error msg =>
      rw [drain_eq_stop (Or.inr ⟨msg, hp⟩)]

theorem drain_sublist (M : Nat) (buf : List Nat) : ((drain M buf).2).Sublist buf :=
  drain_sublist_aux M buf.length buf le_rfl

theorem drain_quiescent_aux (M : Nat) (hM : 2 ^ 32 + 4 ≤ M) : ∀ (n : Nat) (buf : List Nat),
    buf.length ≤ n → (∀ b ∈ buf, b < 256) → parseFrame M (drain M buf).2 = Except.ok none := by
  intro n
  induction n with
  | zero =>
    intro buf hb _
    have hnil : buf = [] := List.eq_nil_of_length_eq_zero (by omega)
    subst hnil
    rw [drain_eq_stop (Or.inl (by simp [parseFrame]))]
    simp [parseFrame]
  | succ k ih =>
    intro buf hb hbytes
    match hp : parseFrame M buf with
    | .ok (some (f, rest)) =>
      rw [drain_eq_some hp]
      have hlt := parseFrame_rest_lt hp
      have hdr : rest = buf.drop (readLenBE buf + 5) := (parseFrame_spec hp).2.2.2.2
      refine ih rest (by omega) ?_
      intro b hbmem
      exact hbytes b ((by rw [hdr]; exact List.drop_sublist _ _ : rest.Sublist buf).subset hbmem)
    | .ok none =>
      rw [drain_eq_stop (Or.inl hp)]
      exact hp
    | .error msg =>
      exact absurd hp (parseFrame_no_error hM hbytes msg)

theorem drain_quiescent (M : Nat) (hM : 2 ^ 32 + 4 ≤ M) (buf : List Nat)
    (hbytes : ∀ b ∈ buf, b < 256) : parseFrame M (drain M buf).2 = Except.ok none :=
  drain_quiescent_aux M hM buf.length buf le_rfl hbytes

theorem drain_append_aux (M : Nat) : ∀ (n : Nat) (buf : List Nat), buf.length ≤ n →
    ∀ (c : List Nat),
      drain M (buf ++ c) = ((drain M buf).1 ++ (drain M ((drain M buf).2 ++ c)).1,
                            (drain M ((drain M buf).2 ++ c)).2) := by
  intro n
  induction n with
  | zero =>
    intro buf hb c
    have hnil : buf = [] := List.eq_nil_of_length_eq_zero (by omega)
    subst hnil
    have h0 : drain M ([] : List Nat) = ([], []) :=
      drain_eq_stop (Or.inl (by simp [parseFrame]))
    rw [h0]
    simp
  | succ k ih =>
    intro buf hb c
    match hp : parseFrame M buf with
    | .ok (some (f, rest)) =>
      have hext := parseFrame_extend hp c
      rw [drain_eq_some hext, drain_eq_some hp]
      have hlt := parseFrame_rest_lt hp
      rw [ih rest (by omega) c]
      simp
    | .ok none =>
      rw [drain_eq_stop (Or.inl hp)]
      simp
    | .error msg =>
      rw [drain_eq_stop (Or.inr ⟨msg, hp⟩)]
      simp

theorem drain_append (M : Nat) (buf c : List Nat) :
    drain M (buf ++ c) = ((drain M buf).1 ++ (drain M ((drain M buf).2 ++ c)).1,
                          (drain M ((drain M buf).2 ++ c)).2) :=
  drain_append_aux M buf.length buf le_rfl c

theorem feedLoop_eq_drain (M : Nat) (hM : 2 ^ 32 + 4 ≤ M) :
    ∀ (fuel : Nat) (buf : List Nat) (acc : List FrameItem),
      (∀ b ∈ buf, b < 256) → buf.length < fuel →
      feedLoop M fuel { buf := buf, failed := false } acc =
        some (acc ++ (drain M buf).1.map FrameItem.frame,
              { buf := (drain M buf).2, failed := false }) := by
  intro fuel
  induction fuel with
  | zero =>
    intro buf acc _ hlen
    omega
  | succ k ih =>
    intro buf acc hbytes hlen
    match hp : parseFrame M buf with
    | .ok (some (f, rest)) =>
      have hstep : feedLoop M (k + 1) { buf := buf, failed := false } acc =
          feedLoop M k { buf := rest, failed := false } (acc ++ [.frame f]) := by
        simp [feedLoop, hp]
      rw [hstep]
      have hlt := parseFrame_rest_lt hp
      have hdr : rest = buf.drop (readLenBE buf + 5) := (parseFrame_spec hp).2.2.2.2
      have hbytes' : ∀ b ∈ rest, b < 256 := by
        intro b hbmem
        exact hbytes b ((by rw [hdr]; exact List.drop_sublist _ _ : rest.Sublist buf).subset hbmem)
      rw [ih rest (acc ++ [FrameItem.frame f]) hbytes' (by omega), drain_eq_some hp]
      simp
    | .ok none =>
      have hstep : feedLoop M (k + 1) { buf := buf, failed := false } acc =
          some (acc, { buf := buf, failed := false }) := by
        simp [feedLoop, hp]
      rw [hstep, drain_eq_stop (Or.inl hp)]
      simp
    | .error msg =>
      exact absurd hp (parseFrame_no_error hM hbytes msg)

theorem runFeeds_cons_some (M fuel : Nat) (s : FrameParseState) (item : FeedItem)
    (rest : List FeedItem) (out : List FrameItem) (s' : FrameParseState)
    (h : s.feed M fuel item = some (out, s')) :
    runFeeds M fuel s (item :: rest) =
      (runFeeds M fuel s' rest).map (fun tail => out ++ tail) := by
  simp only [runFeeds, h]

theorem runFeeds_data_eq (M : Nat) (hM : 2 ^ 32 + 4 ≤ M) :
    ∀ (chunks : List (List Nat)) (buf : List Nat) (fuel : Nat),
      (∀ b ∈ buf ++ chunks.flatten, b < 256) →
      buf.length + chunks.flatten.length < fuel →
      parseFrame M buf = Except.ok none →
      runFeeds M fuel { buf := buf, failed := false } (chunks.map FeedItem.data ++ [FeedItem.eos]) =
        some ((drain M (buf ++ chunks.flatten)).1.map FrameItem.frame ++
              eosItems (drain M (buf ++ chunks.flatten)).2) := by
  intro chunks
  induction chunks with
  | nil =>
    intro buf fuel hbytes hfuel hq
    have hdr : drain M buf = ([], buf) := drain_eq_stop (Or.inl hq)
    simp only [List.map_nil, List.nil_append, List.flatten_nil, List.append_nil, hdr]
    simp only [runFeeds, FrameParseState.feed]
    by_cases hemp : buf.isEmpty
    · simp [hemp, runFeeds, eosItems]
    · simp [hemp, runFeeds, eosItems]
  | cons c cs ih =>
    intro buf fuel hbytes hfuel hq
    have hbc : ∀ b ∈ buf ++ c, b < 256 := by
      intro b hbmem
      refine hbytes b ?_
      simp only [List.flatten_cons] at *
      rcases List.mem_append.mp hbmem with h | h
      · exact List.mem_append.mpr (Or.inl h)
      · exact List.mem_append.mpr (Or.inr (List.mem_append.mpr (Or.inl h)))
    have hlenbc : (buf ++ c).length < fuel := by
      simp only [List.length_append, List.flatten_cons] at *
      omega
    have hfeed : FrameParseState.feed M fuel { buf := buf, failed := false } (FeedItem.data c) =
        some ((drain M (buf ++ c)).1.map FrameItem.frame,
              { buf := (drain M (buf ++ c)).2, failed := false }) := by
      simp only [FrameParseState.feed, if_neg (by simp : ¬ ({ buf := buf, failed := false } :
        FrameParseState).failed = true)]
      exact feedLoop_eq_drain M hM fuel (buf ++ c) [] hbc hlenbc
    rw [List.map_cons, List.cons_append,
      runFeeds_cons_some M fuel _ _ _ _ _ hfeed]
    have hsub := drain_sublist M (buf ++ c)
    have hbytes' : ∀ b ∈ (drain M (buf ++ c)).2 ++ cs.flatten, b < 256 := by
      intro b hbmem
      rcases List.mem_append.mp hbmem with h | h
      · exact hbc b (hsub.subset h)
      · refine hbytes b ?_
        simp only [List.flatten_cons]
        exact List.mem_append.mpr (Or.inr (List.mem_append.mpr (Or.inr h)))
    have hfuel' : (drain M (buf ++ c)).2.length + cs.flatten.length < fuel := by
      have := hsub.length_le
      simp only [List.length_append, List.flatten_cons] at *
      omega
    have hq' : parseFrame M (drain M (buf ++ c)).2 = Except.ok none :=
      drain_quiescent M hM (buf ++ c) hbc
    rw [ih ((drain M (buf ++ c)).2) fuel hbytes' hfuel' hq']
    have hJ : buf ++ (c :: cs).flatten = (buf ++ c) ++ cs.flatten := by
      simp [List.flatten_cons]
    rw [hJ, drain_append M (buf ++ c) cs.flatten]
    simp [List.map_append, List.append_assoc]

/-- Claim C1: for every finite byte sequence and every partition of it into
chunks, feeding the frame codec the chunks one at a time followed by
end-of-stream yields exactly the same sequence of emitted frames and terminal
items as feeding all the bytes as one single chunk followed by end-of-stream.
Stated for genuine byte inputs (entries below 256) on a platform whose
`usize::MAX` is at least `2^32 + 4` (any 64-bit target), with enough fuel for
the parse loop to finish on both sides. -/
theorem frame_codec_chunking_invariant (M : Nat) (bytes : List Nat) (chunks : List (List Nat))
    (hM : 2 ^ 32 + 4 ≤ M) (hb : ∀ b ∈ bytes, b < 256) (hj : chunks.flatten = bytes) :
    bytesStream M (bytes.length + 1) chunks = bytesStream M (bytes.length + 1) [bytes] := by
  subst hj
  unfold bytesStream initState
  rw [runFeeds_data_eq M hM chunks [] (chunks.flatten.length + 1) (by simpa using hb)
    (by simp) (by simp [parseFrame])]
  rw [runFeeds_data_eq M hM [chunks.flatten] [] (chunks.flatten.length + 1)
    (by simpa using hb) (by simp) (by simp [parseFrame])]
  simp

/-- Witness for claim C1: a concrete three-chunk partition of a six-byte
stream containing one frame agrees with the single-chunk run. -/
theorem frame_codec_chunking_invariant_witness :
    2 ^ 32 + 4 ≤ UMAX64 ∧ (∀ b ∈ [0, 0, 0, 0, 1, 65], b < 256) ∧
      ([[0, 0], [0, 0, 1], [65]] : List (List Nat)).flatten = [0, 0, 0, 0, 1, 65] ∧
      bytesStream UMAX64 7 [[0, 0], [0, 0, 1], [65]] = bytesStream UMAX64 7 [[0, 0, 0, 0, 1, 65]] :=
  ⟨by decide, by decide, by decide,
    frame_codec_chunking_invariant UMAX64 [0, 0, 0, 0, 1, 65] [[0, 0], [0, 0, 1], [65]]
      (by decide) (by decide) (by decide)⟩

/-- Claim C5 (code bug): the source defines `FLAGS_COMPRESSED = 0b1` and
`FLAGS_END = 0b01`, the same bit, so the decoded `compressed` and `end` fields
always coincide; in particular the flags byte `0x02` (the Connect protocol's
end-of-stream bit) decodes to `compressed = false, end = false`.  There is no
flags byte decoding to `compressed = false, end = true`, contrary to the
claim that the two flags vary independently. -/
theorem frame_flags_compressed_end_same_bit :
    FLAGS_END = FLAGS_COMPRESSED ∧
    (∀ flags : Nat, parseFrame UMAX64 [flags, 0, 0, 0, 0] =
      Except.ok (some ({ compressed := flags &&& FLAGS_COMPRESSED != 0,
                         end_ := flags &&& FLAGS_COMPRESSED != 0, data := [] }, []))) ∧
    parseFrame UMAX64 [2, 0, 0, 0, 0] =
      Except.ok (some ({ compressed := false, end_ := false, data := [] }, [])) := by
  refine ⟨by decide, ?_, by rfl⟩
  intro flags
  simp [parseFrame, readLenBE, UMAX64, FLAGS_COMPRESSED, FLAGS_END]

/-- The loop in `feed` never finishes once `parse_frame` reports an error:
the error arm pushes the item and retries on the unchanged buffer. -/
theorem feedLoop_error_diverges (M : Nat) (buf : List Nat) (msg : String)
    (hp : parseFrame M buf = Except.error msg) :
    ∀ (n : Nat) (fl : Bool) (acc : List FrameItem),
      feedLoop M n { buf := buf, failed := fl } acc = none := by
  intro n
  induction n with
  | zero => intro fl acc; rfl
  | succ k ih =>
    intro fl acc
    have hstep : feedLoop M (k + 1) { buf := buf, failed := fl } acc =
        feedLoop M k { buf := buf, failed := true } (acc ++ [FrameItem.error msg]) := by
      simp [feedLoop, hp]
    rw [hstep]
    exact ih true (acc ++ [FrameItem.error msg])

/-- Claim C6 (code bug): when `parse_frame` reports `frame too large`, the
`feed` loop pushes the error and continues without consuming the buffer or
breaking, so `parse_frame` fails again forever: `feed` never returns.  On a
32-bit target (`usize::MAX = 2^32 - 1`) the length bytes `ff ff ff ff` make
`data_len + 5` overflow, and for every fuel amount the loop fails to finish
(`none`), refuting the claim that `feed` terminates with exactly one error. -/
theorem frame_too_large_feed_diverges :
    ∀ fuel : Nat,
      FrameParseState.feed UMAX32 fuel initState (FeedItem.data [0, 255, 255, 255, 255]) = none := by
  intro fuel
  have hp : parseFrame UMAX32 [0, 255, 255, 255, 255] = Except.error "frame too large" := by
    rfl
  have hfeed : FrameParseState.feed UMAX32 fuel initState (FeedItem.data [0, 255, 255, 255, 255]) =
      feedLoop UMAX32 fuel { buf := [0, 255, 255, 255, 255], failed := false } [] := by
    simp [FrameParseState.feed, initState]
  rw [hfeed]
  exact feedLoop_error_diverges UMAX32 [0, 255, 255, 255, 255] "frame too large" hp fuel false []

/-- Claim C7: the two-chunk sequence `[00 00 00 00 03]`, `"abc"` yields
exactly one frame `{compressed: false, end: false, data: "abc"}` and a clean
end; the first chunk alone followed by end-of-stream yields the
`partial frame at end of stream` error; end-of-stream on an empty buffer ends
cleanly with no items. -/
theorem frame_codec_concrete_streams :
    bytesStream UMAX64 32 [[0, 0, 0, 0, 3], [97, 98, 99]] =
      some [FrameItem.frame { compressed := false, end_ := false, data := [97, 98, 99] }] ∧
    bytesStream UMAX64 32 [[0, 0, 0, 0, 3]] =
      some [FrameItem.error "partial frame at end of stream"] ∧
    bytesStream UMAX64 32 [] = some [] := by
  exact ⟨by decide, by decide, by decide⟩

deriving instance DecidableEq for Except

/-- The subset of src/lib.rs `Error` variants reachable in the embedded
code paths. -/
inductive VError where
  | invalidRequest (msg : String)
  | base64DecodeError
  | unexpectedMessageCodec (codec : String)
  | unacceptableEncoding (encoding : String)
deriving Repr, DecidableEq

/-- Model of `http::HeaderMap`: an association list of lowercase header
names to string values (all header values in the embedded paths are valid
UTF-8, so `to_str` never fails in the model). -/
abbrev HeaderMap := List (String × String)

/-- Model of `HeaderMap::get`: first value for the name. -/
def getHeader (headers : HeaderMap) (nm : String) : Option String :=
  (headers.find? (fun p => p.1 == nm)).map (fun p => p.2)

/-- Model of `HeaderMap::insert`: replace all previous values for the name. -/
def headerInsert (headers : HeaderMap) (nm v : String) : HeaderMap :=
  headers.filter (fun p => p.1 != nm) ++ [(nm, v)]

/-- Model of `HeaderMap::append`: add a value alongside existing ones. -/
def headerAppend (headers : HeaderMap) (nm v : String) : HeaderMap :=
  headers ++ [(nm, v)]

/-- Character-list core of `str::strip_prefix`. -/
def stripPrefixChars : List Char → List Char → Option (List Char)
  | [], s => some s
  | _ :: _, [] => none
  | p :: ps, c :: cs => if p = c then stripPrefixChars ps cs else none

/-- Rust `str::strip_prefix`, over the character list so it evaluates. -/
def stripPrefixStr (p s : String) : Option String :=
  (stripPrefixChars p.toList s.toList).map (fun cs => String.mk cs)

/-- src/common.rs `content_type` (lines 58-64). -/
def contentTypeOf (headers : HeaderMap) : Except VError String :=
  match getHeader headers "content-type" with
  | some v => Except.ok v
  | none => Except.error (VError.invalidRequest "missing content-type")

/-- src/common.rs `streaming_message_codec` (lines 50-56): strips
`STREAMING_CONTENT_SUBTYPE_PREFIX` (the string `connect+`) from the full
content-type header value. -/
def streaming_message_codec (headers : HeaderMap) : Except VError String :=
  match contentTypeOf headers with
  | .error e => .error e
  | .ok ct =>
    match stripPrefixStr "connect+" ct with
    | some codec => .ok codec
    | none =>
      .error (.invalidRequest "streaming content-type must start with application/connect+")

/-- src/request.rs `StreamingRequest::http_message_codec` (lines 231-233). -/
def StreamingRequest.http_message_codec (headers : HeaderMap) : Except VError String :=
  streaming_message_codec headers

/-- src/response.rs `StreamingResponse::http_message_codec` (lines 167-169). -/
def StreamingResponse.http_message_codec (headers : HeaderMap) : Except VError String :=
  streaming_message_codec headers

/-- src/request/builder.rs `RequestBuilder` fields (scheme/authority elided:
they do not affect headers or query). -/
structure RequestBuilder where
  path : Option String
  metadata : HeaderMap
  message_codec : Option String
  timeout_ms : Option String
  content_encoding : Option String
  accept_encoding : List String
deriving Repr, DecidableEq

/-- src/request/builder.rs `RequestBuilder::common_request` (lines 200-212):
protocol-version and timeout headers over the builder metadata. -/
def commonRequestHeaders (b : RequestBuilder) : HeaderMap :=
  let headers := headerInsert b.metadata "connect-protocol-version" "1"
  match b.timeout_ms with
  | some t => headerInsert headers "connect-timeout-ms" t
  | none => headers

/-- src/request/builder.rs `RequestBuilder::streaming` (lines 243-264), as the
headers of the built request.  Faithful to the source, which formats the
content-type with `CONTENT_TYPE_PREFIX` (`application/`), not the
`application/connect+` form its own comment describes. -/
def RequestBuilder.streaming (b : RequestBuilder) : HeaderMap :=
  let headers := commonRequestHeaders b
  let headers := match b.message_codec with
    | some mc => headerInsert headers "content-type" ("application/" ++ mc)
    | none => headers
  let headers := match b.content_encoding with
    | some ce => headerInsert headers "connect-content-encoding" ce
    | none => headers
  b.accept_encoding.foldl (fun hs v => headerAppend hs "connect-accept-encoding" v) headers

/-- src/response/builder.rs `ResponseBuilder` fields. -/
structure ResponseBuilder where
  status : Nat
  metadata : HeaderMap
  message_codec : Option String
  content_encoding : Option String
deriving Repr, DecidableEq

/-- src/response/builder.rs `ResponseBuilder::streaming` (lines 100-115), as
the headers of the built response.  Like the request builder it formats the
content-type with `CONTENT_TYPE_PREFIX` (`application/`). -/
def ResponseBuilder.streaming (b : ResponseBuilder) : HeaderMap :=
  let headers := b.metadata
  let headers := match b.message_codec with
    | some mc => headerInsert headers "content-type" ("application/" ++ mc)
    | none => headers
  match b.content_encoding with
  | some ce => headerInsert headers "connect-content-encoding" ce
  | none => headers

/-- Claim C2 (code bug): both `RequestBuilder::streaming` and
`ResponseBuilder::streaming` with codec `proto` emit
`content-type: application/proto`, not `application/connect+proto` as the
claim (and the builders own comments, `Streaming-Content-Type`) require. -/
theorem streaming_builders_content_type :
    getHeader (RequestBuilder.streaming
      { path := some "/pkg.Svc/Method", metadata := [], message_codec := some "proto",
        timeout_ms := none, content_encoding := none, accept_encoding := [] })
      "content-type" = some "application/proto" ∧
    getHeader (ResponseBuilder.streaming
      { status := 200, metadata := [], message_codec := some "proto",
        content_encoding := none }) "content-type" = some "application/proto" ∧
    some "application/proto" ≠ some ("application/connect+" ++ "proto") := by
  exact ⟨by decide, by decide, by decide⟩

/-- Claim C3 (code bug): for a streaming request or response whose
content-type is `application/connect+proto`, `message_codec()` returns an
invalid-request error, not `Ok("proto")`: `streaming_message_codec` strips
only `connect+` from the full header value, which starts with `application/`.
Only the non-conforming literal value `connect+proto` would succeed. -/
theorem streaming_message_codec_rejects_standard_content_type :
    streaming_message_codec [("content-type", "application/connect+proto")] =
      Except.error
        (VError.invalidRequest "streaming content-type must start with application/connect+") ∧
    StreamingRequest.http_message_codec [("content-type", "application/connect+proto")] =
      Except.error
        (VError.invalidRequest "streaming content-type must start with application/connect+") ∧
    StreamingResponse.http_message_codec [("content-type", "application/connect+proto")] =
      Except.error
        (VError.invalidRequest "streaming content-type must start with application/connect+") ∧
    streaming_message_codec [("content-type", "connect+proto")] = Except.ok "proto" := by
  exact ⟨by decide, by decide, by decide, by decide⟩

/-- src/response.rs `ValidateOpts`. -/
structure ValidateOpts where
  message_codec : Option String
  accept_encoding : Option (List String)
deriving Repr, DecidableEq

/-- The content-encoding check inside src/response.rs `validate`
(lines 89-97): an encoding other than the literal `identity` must be a member
of `accept_encoding` when that list was supplied. -/
def validateEncoding (contentEncoding : Option String)
    (acceptEncoding : Option (List String)) : Except VError Unit :=
  match contentEncoding with
  | none => .ok ()
  | some encoding =>
    if encoding == "identity" then .ok ()
    else
      match acceptEncoding with
      | none => .ok ()
      | some accept =>
        if accept.any (fun a => a == encoding) then .ok ()
        else .error (.unacceptableEncoding encoding)

/-- src/response.rs `ConnectResponse::validate` for the blanket
`HttpConnectResponse` impl (lines 82-99), abstracted over the accessor
results `codecRes = self.message_codec()` and
`contentEncoding = self.content_encoding()`. -/
def validateResponse (codecRes : Except VError String) (contentEncoding : Option String)
    (opts : ValidateOpts) : Except VError Unit :=
  match codecRes with
  | .error e => .error e
  | .ok codec =>
    match opts.message_codec with
    | some vc =>
      if codec ≠ vc then .error (.unexpectedMessageCodec codec)
      else validateEncoding contentEncoding opts.accept_encoding
    | none => validateEncoding contentEncoding opts.accept_encoding

/-- Counterexample for claim C9: a response with codec `json` and encoding
`gzip`, validated with expected codec `proto` and an empty acceptable list.
The content-encoding is present, is not `identity`, and is not in the
supplied list, yet `validate` does not fail with an unacceptable-encoding
error: the unexpected-codec failure is returned first. -/
theorem validate_unacceptable_encoding_masked :
    ("gzip" ≠ "identity" ∧ "gzip" ∉ ([] : List String)) ∧
    validateResponse (Except.ok "json") (some "gzip")
        { message_codec := some "proto", accept_encoding := some [] } =
      Except.error (VError.unexpectedMessageCodec "json") ∧
    validateResponse (Except.ok "json") (some "gzip")
        { message_codec := some "proto", accept_encoding := some [] } ≠
      Except.error (VError.unacceptableEncoding "gzip") := by
  exact ⟨by decide, by decide, by decide⟩

/-- Claim C9 (amended): over a response whose codec accessor succeeds with
`codec`, `validate` fails with unexpected-codec iff `message_codec` is given
and differs; it fails with unacceptable-encoding iff the codec check passes
AND the content-encoding is present, not `identity`, and not in a supplied
`accept_encoding` list (`identity` always acceptable); it succeeds iff the
codec check passes and the encoding condition fails.  The amendment forced by
the counterexample: the unacceptable-encoding characterisation additionally
requires the codec check to pass, because the unexpected-codec error is
returned first. -/
theorem validate_characterization (codec : String) (enc : Option String)
    (mc : Option String) (ae : Option (List String)) :
    (validateResponse (Except.ok codec) enc { message_codec := mc, accept_encoding := ae } =
        Except.error (VError.unexpectedMessageCodec codec) ↔
      ∃ vc, mc = some vc ∧ codec ≠ vc) ∧
    ((∃ e, validateResponse (Except.ok codec) enc { message_codec := mc, accept_encoding := ae } =
        Except.error (VError.unacceptableEncoding e)) ↔
      ((∀ vc, mc = some vc → codec = vc) ∧
        ∃ e, enc = some e ∧ e ≠ "identity" ∧ ∃ l, ae = some l ∧ e ∉ l)) ∧
    (validateResponse (Except.ok codec) enc { message_codec := mc, accept_encoding := ae } =
        Except.ok () ↔
      ((∀ vc, mc = some vc → codec = vc) ∧
        ¬ ∃ e, enc = some e ∧ e ≠ "identity" ∧ ∃ l, ae = some l ∧ e ∉ l)) := by
  rcases mc with _ | vc <;> rcases enc with _ | e <;> rcases ae with _ | l <;>
    simp only [validateResponse, validateEncoding] <;> (try split_ifs) <;>
    simp_all [List.any_eq_true, beq_iff_eq]

/-- src/response/error.rs `ConnectCode`: the 17 canonical codes. -/
inductive ConnectCode where
  | Ok
  | Canceled
  | Unknown
  | InvalidArgument
  | DeadlineExceeded
  | NotFound
  | AlreadyExists
  | PermissionDenied
  | ResourceExhausted
  | FailedPrecondition
  | Aborted
  | OutOfRange
  | Unimplemented
  | Internal
  | Unavailable
  | DataLoss
  | Unauthenticated
deriving Repr, DecidableEq

/-- src/response/error.rs `impl From<http::StatusCode> for ConnectCode`
(lines 137-153); the status is its numeric value. -/
def statusToCode (status : Nat) : ConnectCode :=
  match status with
  | 400 => .Internal
  | 401 => .Unauthenticated
  | 403 => .PermissionDenied
  | 404 => .Unimplemented
  | 501 => .Unimplemented
  | 429 => .Unavailable
  | 502 => .Unavailable
  | 503 => .Unavailable
  | 504 => .Unavailable
  | _ => .Unknown

/-- src/response/error.rs `ConnectErrorDetail`. -/
structure ConnectErrorDetail where
  proto_type : String
  value_base64 : String
deriving Repr, DecidableEq

/-- src/response/error.rs `ConnectError` (the serde-skipped `headers` field
included). -/
structure ConnectError where
  code : Option ConnectCode
  message : String
  details : List ConnectErrorDetail
  headers : HeaderMap
deriving Repr, DecidableEq

/-- src/response/error.rs `ConnectError::new`. -/
def ConnectError.new (code : ConnectCode) (message : String) : ConnectError :=
  { code := some code, message := message, details := [], headers := [] }

/-- src/response/error.rs `ConnectError::code`: defaults to `Unknown`. -/
def ConnectError.codeOrUnknown (e : ConnectError) : ConnectCode :=
  e.code.getD .Unknown

/-- src/response/error.rs `impl From<http::Response<T>> for ConnectError`
(lines 49-70).  JSON deserialization (`serde_json::from_slice`) is an
external collaborator; its outcome on the body is abstracted as `parsed`
(`none` models a body that fails to parse as the error schema, `some e` a
parsed body, whose absent `code` is `none` per the tolerant
`deserialize_error_code`). -/
def connectErrorFromResponse (status : Nat) (headers : HeaderMap)
    (parsed : Option ConnectError) : ConnectError :=
  let error :=
    if getHeader headers "content-type" = some "application/json" then
      match parsed with
      | some e => some { e with code := some (e.code.getD (statusToCode status)) }
      | none => none
    else none
  let e := error.getD (ConnectError.new (statusToCode status) "request invalid")
  { e with headers := headers }

/-- Claim C8: the HTTP status fallback table (400 Internal, 401
Unauthenticated, 403 PermissionDenied, 404/501 Unimplemented,
429/502/503/504 Unavailable, everything else Unknown); a 404 response with no
JSON error body synthesizes `{code: Unimplemented, message: "request
invalid"}`; a JSON body lacking a code falls back to the status code. -/
theorem status_fallback_table :
    (statusToCode 400 = ConnectCode.Internal ∧
     statusToCode 401 = ConnectCode.Unauthenticated ∧
     statusToCode 403 = ConnectCode.PermissionDenied ∧
     statusToCode 404 = ConnectCode.Unimplemented ∧
     statusToCode 501 = ConnectCode.Unimplemented ∧
     statusToCode 429 = ConnectCode.Unavailable ∧
     statusToCode 502 = ConnectCode.Unavailable ∧
     statusToCode 503 = ConnectCode.Unavailable ∧
     statusToCode 504 = ConnectCode.Unavailable) ∧
    (∀ s : Nat, s ≠ 400 → s ≠ 401 → s ≠ 403 → s ≠ 404 → s ≠ 501 → s ≠ 429 → s ≠ 502 →
      s ≠ 503 → s ≠ 504 → statusToCode s = ConnectCode.Unknown) ∧
    connectErrorFromResponse 404 [] none =
      { code := some ConnectCode.Unimplemented, message := "request invalid",
        details := [], headers := [] } ∧
    (connectErrorFromResponse 400 [("content-type", "application/json")]
        (some { code := none, message := "boom", details := [], headers := [] })).code =
      some ConnectCode.Internal := by
  refine ⟨by decide, ?_, by decide, by decide⟩
  intro s h400 h401 h403 h404 h501 h429 h502 h503 h504
  unfold statusToCode
  split <;> simp_all

/-- Witness for claim C8: status 500 is none of the tabulated statuses and
falls back to Unknown. -/
theorem status_fallback_table_witness : statusToCode 500 = ConnectCode.Unknown :=
  status_fallback_table.2.1 500 (by decide) (by decide) (by decide) (by decide) (by decide)
    (by decide) (by decide) (by decide) (by decide)

/-- Split a character list on a separator character (the model of
`str::splitOn` for the single-character separators used here). -/
def splitOnCharAux (sep : Char) : List Char → List Char → List (List Char)
  | [], acc => [acc.reverse]
  | c :: cs, acc =>
    if c = sep then acc.reverse :: splitOnCharAux sep cs []
    else splitOnCharAux sep cs (c :: acc)

def splitOnChar (sep : Char) (l : List Char) : List (List Char) :=
  splitOnCharAux sep l []

/-- Hex digit for percent-escaping (uppercase, as the url crate emits). -/
def hexDigitChar (n : Nat) : Char :=
  if n < 10 then Char.ofNat (48 + n) else Char.ofNat (55 + n)

def percentEscapeByte (b : Nat) : List Char :=
  ['%', hexDigitChar (b / 16 % 16), hexDigitChar (b % 16)]

/-- One character of `form_urlencoded` serialization: space becomes `+`,
bytes outside the unreserved set are percent-escaped (inputs here are
ASCII). -/
def formEncodeChar (c : Char) : List Char :=
  if c = ' ' then ['+']
  else if c.isAlphanum ∨ c = '*' ∨ c = '-' ∨ c = '.' ∨ c = '_' then [c]
  else percentEscapeByte (c.toNat % 256)

def formEncode (s : String) : String :=
  String.mk (s.toList.map formEncodeChar).flatten

/-- Model of `form_urlencoded::Serializer::append_pair` with the serializer target and
its recorded `start` position: a `&` is pushed only when the target has grown
past `start`. -/
def appendPair (target : String) (start : Nat) (k v : String) : String :=
  (if start < target.length then target ++ "&" else target) ++ formEncode k ++ "=" ++ formEncode v

/-- Value of a hex digit character. -/
def hexVal (c : Char) : Option Nat :=
  if 48 ≤ c.toNat ∧ c.toNat ≤ 57 then some (c.toNat - 48)
  else if 65 ≤ c.toNat ∧ c.toNat ≤ 70 then some (c.toNat - 55)
  else if 97 ≤ c.toNat ∧ c.toNat ≤ 102 then some (c.toNat - 87)
  else none

/-- Percent-decoding over characters (`percent_encoding::percent_decode_str`):
`%xy` with two hex digits becomes the byte, otherwise the `%` is literal. -/
def percentDecodeChars : List Char → List Char
  | [] => []
  | '%' :: a :: b :: rest =>
    match hexVal a, hexVal b with
    | some x, some y => Char.ofNat (16 * x + y) :: percentDecodeChars rest
    | _, _ => '%' :: percentDecodeChars (a :: b :: rest)
  | c :: rest => c :: percentDecodeChars rest

/-- Model of `form_urlencoded` decoding of one component: `+` is a space, then
percent-decode. -/
def formDecodeChars (l : List Char) : List Char :=
  percentDecodeChars (l.map (fun c => if c = '+' then ' ' else c))

/-- One `k=v` piece of a query string (split at the first `=`; missing value
is empty). -/
def parsePairChars (p : List Char) : String × String :=
  match splitOnChar '=' p with
  | [] => ("", "")
  | k :: rest =>
    (String.mk (formDecodeChars k), String.mk (formDecodeChars (List.intercalate ['='] rest)))

/-- Model of `form_urlencoded::parse` over a raw query string: split on `&`, skip
empty pieces, split each piece at the first `=`. -/
def parseQueryStr (s : String) : List (String × String) :=
  ((splitOnChar '&' s.toList).filter (fun p => !p.isEmpty)).map parsePairChars

/-- Model of the `HashMap` collected from parsed pairs: later occurrences of a key
overwrite earlier ones, so lookup takes the last. -/
def queryGet (q : List (String × String)) (k : String) : Option String :=
  (q.reverse.find? (fun p => p.1 == k)).map (fun p => p.2)

/-- Model of `http::Uri::query()`: everything after the first `?`, if any. -/
def uriQuery (pq : String) : Option String :=
  match splitOnChar '?' pq.toList with
  | [] => none
  | [_] => none
  | _ :: rest => some (String.mk (List.intercalate ['?'] rest))

/-- The base64url alphabet (no padding). -/
def base64UrlAlphabetChars : List Char :=
  "ABCDEFGHIJKLMNOPQRSTUVWXYZabcdefghijklmnopqrstuvwxyz0123456789-_".toList

def base64Char (n : Nat) : Char :=
  base64UrlAlphabetChars.getD n 'A'

/-- Model of the `base64` crate URL_SAFE_NO_PAD encoding. -/
def base64UrlNoPadEncodeChars : List Nat → List Char
  | [] => []
  | [b0] => [base64Char (b0 / 4), base64Char (b0 % 4 * 16)]
  | [b0, b1] =>
    [base64Char (b0 / 4), base64Char (b0 % 4 * 16 + b1 / 16), base64Char (b1 % 16 * 4)]
  | b0 :: b1 :: b2 :: rest =>
    base64Char (b0 / 4) :: base64Char (b0 % 4 * 16 + b1 / 16) ::
      base64Char (b1 % 16 * 4 + b2 / 64) :: base64Char (b2 % 64) ::
      base64UrlNoPadEncodeChars rest

def base64UrlNoPadEncode (bs : List Nat) : String :=
  String.mk (base64UrlNoPadEncodeChars bs)

def base64CharVal (c : Char) : Option Nat :=
  base64UrlAlphabetChars.findIdx? (fun a => a = c)

/-- Model of the URL_SAFE_NO_PAD decoding (strict: rejects bad alphabet, impossible
lengths, and nonzero trailing bits). -/
def base64UrlNoPadDecodeChars : List Char → Option (List Nat)
  | [] => some []
  | [_] => none
  | [a, b] => do
    let x ← base64CharVal a
    let y ← base64CharVal b
    if y % 16 ≠ 0 then none
    else some [x * 4 + y / 16]
  | [a, b, c] => do
    let x ← base64CharVal a
    let y ← base64CharVal b
    let z ← base64CharVal c
    if z % 4 ≠ 0 then none
    else some [x * 4 + y / 16, y % 16 * 16 + z / 4]
  | a :: b :: c :: d :: rest => do
    let x ← base64CharVal a
    let y ← base64CharVal b
    let z ← base64CharVal c
    let w ← base64CharVal d
    let tail ← base64UrlNoPadDecodeChars rest
    some ((x * 4 + y / 16) :: (y % 16 * 16 + z / 4) :: (z % 4 * 64 + w) :: tail)

def base64UrlNoPadDecode (s : String) : Option (List Nat) :=
  base64UrlNoPadDecodeChars s.toList

/-- UTF-8 continuation byte. -/
def utf8Cont (b : Nat) : Bool :=
  decide (128 ≤ b) && decide (b ≤ 191)

/-- RFC 3629 UTF-8 validity over bytes (`str::from_utf8` collaborator,
used by `UnaryGetRequest::message` via `decode_utf8`). -/
def isValidUtf8 : List Nat → Bool
  | [] => true
  | b :: rest =>
    if b ≤ 127 then isValidUtf8 rest
    else if 194 ≤ b ∧ b ≤ 223 then
      match rest with
      | c :: rest2 => utf8Cont c && isValidUtf8 rest2
      | [] => false
    else if b = 224 then
      match rest with
      | c :: d :: rest2 =>
        decide (160 ≤ c) && decide (c ≤ 191) && utf8Cont d && isValidUtf8 rest2
      | _ => false
    else if (225 ≤ b ∧ b ≤ 236) ∨ b = 238 ∨ b = 239 then
      match rest with
      | c :: d :: rest2 => utf8Cont c && utf8Cont d && isValidUtf8 rest2
      | _ => false
    else if b = 237 then
      match rest with
      | c :: d :: rest2 =>
        decide (128 ≤ c) && decide (c ≤ 159) && utf8Cont d && isValidUtf8 rest2
      | _ => false
    else if b = 240 then
      match rest with
      | c :: d :: e :: rest2 =>
        decide (144 ≤ c) && decide (c ≤ 191) && utf8Cont d && utf8Cont e && isValidUtf8 rest2
      | _ => false
    else if 241 ≤ b ∧ b ≤ 243 then
      match rest with
      | c :: d :: e :: rest2 => utf8Cont c && utf8Cont d && utf8Cont e && isValidUtf8 rest2
      | _ => false
    else if b = 244 then
      match rest with
      | c :: d :: e :: rest2 =>
        decide (128 ≤ c) && decide (c ≤ 143) && utf8Cont d && utf8Cont e && isValidUtf8 rest2
      | _ => false
    else false

/-- src/request.rs `UnaryGetRequest`: the inner request (its URI
path-and-query) together with the query map parsed from it on construction
(`From<http::Request<()>>`, lines 327-335). -/
structure UnaryGetRequest where
  path_and_query : String
  query : List (String × String)
deriving Repr, DecidableEq

/-- src/request.rs `From<http::Request<()>> for UnaryGetRequest`. -/
def unaryGetFromHttp (path_and_query : String) : UnaryGetRequest :=
  { path_and_query := path_and_query,
    query := parseQueryStr ((uriQuery path_and_query).getD "") }

/-- src/request.rs `UnaryGetRequest::message` (lines 269-288). -/
def UnaryGetRequest.message (r : UnaryGetRequest) : Except VError (List Nat) :=
  match queryGet r.query "message" with
  | none => .error (.invalidRequest "missing message")
  | some m =>
    if queryGet r.query "base64" == some "1" then
      match base64UrlNoPadDecode m with
      | some bs => .ok bs
      | none => .error .base64DecodeError
    else
      let bs := (percentDecodeChars m.toList).map Char.toNat
      if isValidUtf8 bs then .ok bs
      else .error (.invalidRequest "message not valid utf8")

/-- src/request.rs `UnaryGetRequest::http_message_codec` (lines 300-305). -/
def UnaryGetRequest.http_message_codec (r : UnaryGetRequest) : Except VError String :=
  match queryGet r.query "encoding" with
  | some s => .ok s
  | none => .error (.invalidRequest "missing encoding param")

/-- src/request.rs `UnaryGetRequest::http_content_encoding` (lines 311-313):
faithful to the source, which reads the `encoding` query parameter (not
`compression`). -/
def UnaryGetRequest.http_content_encoding (r : UnaryGetRequest) : Option String :=
  queryGet r.query "encoding"

/-- src/request.rs `UnaryGetRequest::http_connect_protocol_version`
(lines 307-309). -/
def UnaryGetRequest.http_connect_protocol_version (r : UnaryGetRequest) : Option String :=
  (queryGet r.query "connect").bind (fun s => stripPrefixStr "v" s)

/-- src/request.rs `validate_request` (lines 120-132) over the two accessor
results. -/
def validateRequestCommon (ver : Option String) (codecRes : Except VError String) :
    Except VError Unit :=
  match ver with
  | none => codecRes.map (fun _ => ())
  | some v =>
    if v == "1" then codecRes.map (fun _ => ())
    else .error (.invalidRequest ("unknown connect-protocol-version " ++ v))

/-- src/request.rs `UnaryGetRequest::http_validate` (lines 315-324). -/
def UnaryGetRequest.http_validate (r : UnaryGetRequest) : Except VError Unit :=
  match validateRequestCommon r.http_connect_protocol_version r.http_message_codec with
  | .error e => .error e
  | .ok _ =>
    if (queryGet r.query "message").isSome then .ok ()
    else .error (.invalidRequest "missing message param")

/-- src/request/builder.rs `RequestBuilder::unary_get` (lines 269-305).
The query serializer is seeded with the string `?`
(`Serializer::new("?".to_string())`, whose start position is 0, so the first
`append_pair` already pushes a `&` separator after the non-empty seed) and
the URI is assembled as `format!("{path}?{query}")`: the serialized query
keeps that seed and the path gets a second `?`. -/
def RequestBuilder.unary_get (b : RequestBuilder) (message : List Nat) :
    Except VError UnaryGetRequest :=
  match b.path with
  | none => .error (.invalidRequest "path required")
  | some path =>
    match b.message_codec with
    | none => .error (.invalidRequest "message codec required")
    | some mc =>
      let q0 := "?"
      let start := 0
      let q1 := appendPair q0 start "message" (base64UrlNoPadEncode message)
      let q2 := appendPair q1 start "base64" "1"
      let q3 := appendPair q2 start "connect" "v1"
      let q4 := appendPair q3 start "encoding" mc
      let q5 :=
        match b.content_encoding with
        | some ce => appendPair q4 start "compression" ce
        | none => q4
      .ok (unaryGetFromHttp (path ++ "?" ++ q5))

theorem percentDecodeChars_cons_ne (c : Char) (rest : List Char) (hc : c ≠ '%') :
    percentDecodeChars (c :: rest) = c :: percentDecodeChars rest := by
  rw [percentDecodeChars.eq_def]
  split
  · rename_i heq
    simp at heq
  · rename_i a b rest3 heq
    rw [List.cons.injEq] at heq
    exact absurd heq.1 hc
  · rename_i c' rest' heq
    rw [List.cons.injEq] at heq
    rw [heq.1, heq.2]

theorem percentDecodeChars_no_escape :
    ∀ l : List Char, (∀ c ∈ l, c ≠ '%') → percentDecodeChars l = l := by
  intro l
  induction l with
  | nil => intro _; rfl
  | cons c rest ih =>
    intro h
    rw [percentDecodeChars_cons_ne c rest (h c (by simp))]
    rw [ih (fun x hx => h x (by simp [hx]))]

theorem formDecodeChars_plain :
    ∀ l : List Char, (∀ c ∈ l, c ≠ '%' ∧ c ≠ '+') → formDecodeChars l = l := by
  intro l h
  unfold formDecodeChars
  have hmap : l.map (fun c => if c = '+' then ' ' else c) = l := by
    have : ∀ c ∈ l, (if c = '+' then ' ' else c) = id c := by
      intro c hc
      simp [(h c hc).2]
    rw [List.map_congr_left this, List.map_id]
  rw [hmap]
  exact percentDecodeChars_no_escape l (fun c hc => (h c hc).1)

theorem splitOnCharAux_no_sep (sep : Char) :
    ∀ (l acc : List Char), (∀ c ∈ l, c ≠ sep) →
      splitOnCharAux sep l acc = [acc.reverse ++ l] := by
  intro l
  induction l with
  | nil => intro acc _; simp [splitOnCharAux]
  | cons c rest ih =>
    intro acc h
    have hc : c ≠ sep := h c (by simp)
    simp only [splitOnCharAux, if_neg hc]
    rw [ih (c :: acc) (fun x hx => h x (by simp [hx]))]
    simp

theorem splitOnCharAux_sep_split (sep : Char) :
    ∀ (l1 l2 acc : List Char), (∀ c ∈ l1, c ≠ sep) →
      splitOnCharAux sep (l1 ++ sep :: l2) acc =
        (acc.reverse ++ l1) :: splitOnCharAux sep l2 [] := by
  intro l1
  induction l1 with
  | nil =>
    intro l2 acc _
    simp [splitOnCharAux]
  | cons c rest ih =>
    intro l2 acc h
    have hc : c ≠ sep := h c (by simp)
    simp only [List.cons_append, splitOnCharAux, if_neg hc, List.append_eq]
    rw [ih l2 (c :: acc) (fun x hx => h x (by simp [hx]))]
    simp

theorem base64Char_mem (n : Nat) : base64Char n ∈ base64UrlAlphabetChars := by
  unfold base64Char
  rw [List.getD_eq_getElem?_getD]
  cases h : base64UrlAlphabetChars[n]? with
  | none => simp only [Option.getD_none]; decide
  | some c =>
    simp only [Option.getD_some]
    exact List.getElem?_mem h

theorem alphabet_plain : ∀ c ∈ base64UrlAlphabetChars,
    c ≠ '%' ∧ c ≠ '+' ∧ c ≠ '&' ∧ c ≠ '=' ∧ c ≠ '?' := by decide

theorem encodeChars_mem_aux : ∀ (n : Nat) (m : List Nat), m.length ≤ n →
    ∀ c ∈ base64UrlNoPadEncodeChars m, c ∈ base64UrlAlphabetChars := by
  intro n
  induction n with
  | zero =>
    intro m hm c hc
    have hnil : m = [] := List.eq_nil_of_length_eq_zero (by omega)
    subst hnil
    simp [base64UrlNoPadEncodeChars] at hc
  | succ k ih =>
    intro m hm c hc
    match m with
    | [] => simp [base64UrlNoPadEncodeChars] at hc
    | [b0] =>
      simp only [base64UrlNoPadEncodeChars, List.mem_cons, List.not_mem_nil, or_false] at hc
      rcases hc with h | h <;> rw [h] <;> exact base64Char_mem _
    | [b0, b1] =>
      simp only [base64UrlNoPadEncodeChars, List.mem_cons, List.not_mem_nil, or_false] at hc
      rcases hc with h | h | h <;> rw [h] <;> exact base64Char_mem _
    | b0 :: b1 :: b2 :: rest =>
      simp only [base64UrlNoPadEncodeChars, List.mem_cons] at hc
      rcases hc with h | h | h | h | h
      · rw [h]; exact base64Char_mem _
      · rw [h]; exact base64Char_mem _
      · rw [h]; exact base64Char_mem _
      · rw [h]; exact base64Char_mem _
      · exact ih rest (by simp at hm; omega) c h

theorem encodeChars_mem (m : List Nat) :
    ∀ c ∈ base64UrlNoPadEncodeChars m, c ∈ base64UrlAlphabetChars :=
  encodeChars_mem_aux m.length m le_rfl

theorem base64CharVal_base64Char : ∀ n : Nat, n < 64 → base64CharVal (base64Char n) = some n := by
  decide

theorem base64_roundtrip_aux : ∀ (n : Nat) (m : List Nat), m.length ≤ n → (∀ b ∈ m, b < 256) →
    base64UrlNoPadDecodeChars (base64UrlNoPadEncodeChars m) = some m := by
  intro n
  induction n with
  | zero =>
    intro m hm _
    have hnil : m = [] := List.eq_nil_of_length_eq_zero (by omega)
    subst hnil
    rfl
  | succ k ih =>
    intro m hm hb
    match m with
    | [] => rfl
    | [b0] =>
      have h0 : b0 < 256 := hb b0 (by simp)
      have e1 : base64CharVal (base64Char (b0 / 4)) = some (b0 / 4) :=
        base64CharVal_base64Char _ (by omega)
      have e2 : base64CharVal (base64Char (b0 % 4 * 16)) = some (b0 % 4 * 16) :=
        base64CharVal_base64Char _ (by omega)
      simp only [base64UrlNoPadEncodeChars, base64UrlNoPadDecodeChars, e1, e2, Option.bind_eq_bind,
        Option.some_bind]
      have hz : ¬ b0 % 4 * 16 % 16 ≠ 0 := by omega
      simp only [if_neg hz, Option.some.injEq, List.cons.injEq, and_true]
      omega
    | [b0, b1] =>
      have h0 : b0 < 256 := hb b0 (by simp)
      have h1 : b1 < 256 := hb b1 (by simp)
      have e1 : base64CharVal (base64Char (b0 / 4)) = some (b0 / 4) :=
        base64CharVal_base64Char _ (by omega)
      have e2 : base64CharVal (base64Char (b0 % 4 * 16 + b1 / 16)) = some (b0 % 4 * 16 + b1 / 16) :=
        base64CharVal_base64Char _ (by omega)
      have e3 : base64CharVal (base64Char (b1 % 16 * 4)) = some (b1 % 16 * 4) :=
        base64CharVal_base64Char _ (by omega)
      simp only [base64UrlNoPadEncodeChars, base64UrlNoPadDecodeChars, e1, e2, e3,
        Option.bind_eq_bind, Option.some_bind]
      have hz : ¬ b1 % 16 * 4 % 4 ≠ 0 := by omega
      simp only [if_neg hz, Option.some.injEq, List.cons.injEq, and_true]
      constructor <;> omega
    | b0 :: b1 :: b2 :: rest =>
      have h0 : b0 < 256 := hb b0 (by simp)
      have h1 : b1 < 256 := hb b1 (by simp)
      have h2 : b2 < 256 := hb b2 (by simp)
      have e1 : base64CharVal (base64Char (b0 / 4)) = some (b0 / 4) :=
        base64CharVal_base64Char _ (by omega)
      have e2 : base64CharVal (base64Char (b0 % 4 * 16 + b1 / 16)) = some (b0 % 4 * 16 + b1 / 16) :=
        base64CharVal_base64Char _ (by omega)
      have e3 : base64CharVal (base64Char (b1 % 16 * 4 + b2 / 64)) = some (b1 % 16 * 4 + b2 / 64) :=
        base64CharVal_base64Char _ (by omega)
      have e4 : base64CharVal (base64Char (b2 % 64)) = some (b2 % 64) :=
        base64CharVal_base64Char _ (by omega)
      have etail : base64UrlNoPadDecodeChars (base64UrlNoPadEncodeChars rest) = some rest :=
        ih rest (by simp at hm; omega) (fun b hbm => hb b (by simp [hbm]))
      simp only [base64UrlNoPadEncodeChars, base64UrlNoPadDecodeChars, e1, e2, e3, e4, etail,
        Option.bind_eq_bind, Option.some_bind, Option.some.injEq, List.cons.injEq, and_true]
      refine ⟨by omega, by omega, by omega⟩

theorem base64_roundtrip (m : List Nat) (hb : ∀ b ∈ m, b < 256) :
    base64UrlNoPadDecodeChars (base64UrlNoPadEncodeChars m) = some m :=
  base64_roundtrip_aux m.length m le_rfl hb

theorem formEncodeChar_alphabet : ∀ c ∈ base64UrlAlphabetChars, formEncodeChar c = [c] := by
  decide

theorem flatten_formEncode : ∀ (l : List Char), (∀ c ∈ l, c ∈ base64UrlAlphabetChars) →
    (l.map formEncodeChar).flatten = l := by
  intro l
  induction l with
  | nil => intro _; rfl
  | cons c rest ih =>
    intro h
    simp only [List.map_cons, List.flatten_cons]
    rw [formEncodeChar_alphabet c (h c (by simp)), ih (fun x hx => h x (by simp [hx]))]
    rfl

theorem formEncode_alphabet (l : List Char) (h : ∀ c ∈ l, c ∈ base64UrlAlphabetChars) :
    formEncode (String.mk l) = String.mk l := by
  unfold formEncode
  rw [show (String.mk l).toList = l from rfl, flatten_formEncode l h]

theorem appendPair_of_pos (t : String) (ht : 0 < t.length) (k v : String) :
    appendPair t 0 k v = t ++ "&" ++ formEncode k ++ "=" ++ formEncode v := by
  unfold appendPair
  rw [if_pos ht]

theorem splitOnChar_append_sep (sep : Char) (l1 l2 : List Char) (h : ∀ c ∈ l1, c ≠ sep) :
    splitOnChar sep (l1 ++ sep :: l2) = l1 :: splitOnChar sep l2 := by
  unfold splitOnChar
  rw [splitOnCharAux_sep_split sep l1 l2 [] h]
  simp

theorem splitOnChar_no_sep (sep : Char) (l : List Char) (h : ∀ c ∈ l, c ≠ sep) :
    splitOnChar sep l = [l] := by
  unfold splitOnChar
  rw [splitOnCharAux_no_sep sep l [] h]
  simp

/-- The concrete tail of the unary-get query string after the message value. -/
def c4Tail : List Char :=
  "base64".data ++ '=' :: '1' :: '&' ::
    ("connect".data ++ '=' :: 'v' :: '1' :: '&' :: ("encoding".data ++ '=' :: "proto".data))

theorem c4_pq_data (m : List Nat) :
    ("/pkg.Svc/Method" ++ "?" ++ ("?" ++ "&" ++ "message" ++ "=" ++ base64UrlNoPadEncode m ++
      "&" ++ "base64" ++ "=" ++ "1" ++ "&" ++ "connect" ++ "=" ++ "v1" ++ "&" ++ "encoding" ++
      "=" ++ "proto")).data =
    "/pkg.Svc/Method".data ++ '?' :: '?' :: '&' ::
      ("message".data ++ '=' :: (base64UrlNoPadEncodeChars m ++ '&' :: c4Tail)) := by
  simp only [String.data_append]
  rw [show (base64UrlNoPadEncode m).data = base64UrlNoPadEncodeChars m from rfl]
  simp [c4Tail, List.append_assoc]

theorem c4_parse_message_pair (enc : List Char)
    (h : ∀ c ∈ enc, c ≠ '%' ∧ c ≠ '+' ∧ c ≠ '&' ∧ c ≠ '=' ∧ c ≠ '?') :
    parsePairChars ("message".data ++ '=' :: enc) = ("message", String.mk enc) := by
  unfold parsePairChars
  rw [splitOnChar_append_sep '=' "message".data enc (by decide),
    splitOnChar_no_sep '=' enc (fun c hc => (h c hc).2.2.2.1)]
  have hic : List.intercalate ['='] [enc] = enc := by
    simp [List.intercalate, List.intersperse]
  show (String.mk (formDecodeChars ("message".data)),
        String.mk (formDecodeChars (List.intercalate ['='] [enc]))) = ("message", String.mk enc)
  rw [hic, formDecodeChars_plain enc (fun c hc => ⟨(h c hc).1, (h c hc).2.1⟩),
    Prod.mk.injEq]
  exact ⟨by decide, rfl⟩

theorem c4_query (m : List Nat) :
    (unaryGetFromHttp ("/pkg.Svc/Method" ++ "?" ++ ("?" ++ "&" ++ "message" ++ "=" ++ base64UrlNoPadEncode m ++
      "&" ++ "base64" ++ "=" ++ "1" ++ "&" ++ "connect" ++ "=" ++ "v1" ++ "&" ++ "encoding" ++
      "=" ++ "proto"))).query =
    [("?", ""), ("message", String.mk (base64UrlNoPadEncodeChars m)), ("base64", "1"),
     ("connect", "v1"), ("encoding", "proto")] := by
  have hplain : ∀ c ∈ base64UrlNoPadEncodeChars m,
      c ≠ '%' ∧ c ≠ '+' ∧ c ≠ '&' ∧ c ≠ '=' ∧ c ≠ '?' :=
    fun c hc => alphabet_plain c (encodeChars_mem m c hc)
  have hnoq : ∀ c ∈ '&' :: ("message".data ++ '=' :: (base64UrlNoPadEncodeChars m ++ '&' :: c4Tail)), c ≠ '?' := by
    intro c hc
    rcases List.mem_cons.mp hc with rfl | hc
    · decide
    rcases List.mem_append.mp hc with hc | hc
    · exact (by decide : ∀ x ∈ "message".data, x ≠ '?') c hc
    rcases List.mem_cons.mp hc with rfl | hc
    · decide
    rcases List.mem_append.mp hc with hc | hc
    · exact (hplain c hc).2.2.2.2
    rcases List.mem_cons.mp hc with rfl | hc
    · decide
    · exact (by decide : ∀ x ∈ c4Tail, x ≠ '?') c hc
  have hampfree : ∀ c ∈ "message".data ++ '=' :: base64UrlNoPadEncodeChars m, c ≠ '&' := by
    intro c hc
    rcases List.mem_append.mp hc with hc | hc
    · exact (by decide : ∀ x ∈ "message".data, x ≠ '&') c hc
    rcases List.mem_cons.mp hc with rfl | hc
    · decide
    · exact (hplain c hc).2.2.1
  have huri : uriQuery ("/pkg.Svc/Method" ++ "?" ++ ("?" ++ "&" ++ "message" ++ "=" ++ base64UrlNoPadEncode m ++
      "&" ++ "base64" ++ "=" ++ "1" ++ "&" ++ "connect" ++ "=" ++ "v1" ++ "&" ++ "encoding" ++
      "=" ++ "proto")) =
      some (String.mk ('?' :: '&' :: ("message".data ++ '=' :: (base64UrlNoPadEncodeChars m ++ '&' :: c4Tail)))) := by
    unfold uriQuery
    rw [show ("/pkg.Svc/Method" ++ "?" ++ ("?" ++ "&" ++ "message" ++ "=" ++ base64UrlNoPadEncode m ++
      "&" ++ "base64" ++ "=" ++ "1" ++ "&" ++ "connect" ++ "=" ++ "v1" ++ "&" ++ "encoding" ++
      "=" ++ "proto")).toList = ("/pkg.Svc/Method" ++ "?" ++ ("?" ++ "&" ++ "message" ++ "=" ++ base64UrlNoPadEncode m ++
      "&" ++ "base64" ++ "=" ++ "1" ++ "&" ++ "connect" ++ "=" ++ "v1" ++ "&" ++ "encoding" ++
      "=" ++ "proto")).data from rfl, c4_pq_data m]
    rw [splitOnChar_append_sep '?' ("/pkg.Svc/Method".data) _ (by decide)]
    rw [show ('?' :: '&' :: ("message".data ++ '=' :: (base64UrlNoPadEncodeChars m ++ '&' :: c4Tail)) : List Char) =
        ([] : List Char) ++ '?' :: ('&' :: ("message".data ++ '=' :: (base64UrlNoPadEncodeChars m ++ '&' :: c4Tail))) from rfl]
    rw [splitOnChar_append_sep '?' [] _ (by simp)]
    rw [splitOnChar_no_sep '?' _ hnoq]
    simp [List.intercalate, List.intersperse]
  unfold unaryGetFromHttp
  rw [huri]
  simp only [Option.getD_some]
  unfold parseQueryStr
  rw [show (String.mk ('?' :: '&' :: ("message".data ++ '=' :: (base64UrlNoPadEncodeChars m ++ '&' :: c4Tail)))).toList =
      '?' :: '&' :: ("message".data ++ '=' :: (base64UrlNoPadEncodeChars m ++ '&' :: c4Tail)) from rfl]
  rw [show ('?' :: '&' :: ("message".data ++ '=' :: (base64UrlNoPadEncodeChars m ++ '&' :: c4Tail)) : List Char) =
      ['?'] ++ '&' :: ("message".data ++ '=' :: (base64UrlNoPadEncodeChars m ++ '&' :: c4Tail)) from rfl]
  rw [splitOnChar_append_sep '&' ['?'] _ (by decide)]
  have e2 : ("message".data ++ '=' :: (base64UrlNoPadEncodeChars m ++ '&' :: c4Tail)) = ("message".data ++ '=' :: base64UrlNoPadEncodeChars m) ++ '&' :: c4Tail := by
    simp
  rw [e2, splitOnChar_append_sep '&' ("message".data ++ '=' :: base64UrlNoPadEncodeChars m) c4Tail hampfree]
  rw [show splitOnChar '&' c4Tail = ["base64".data ++ '=' :: ['1'],
      "connect".data ++ '=' :: ['v', '1'], "encoding".data ++ '=' :: "proto".data] from by decide]
  rw [List.filter_eq_self.mpr ?hf]
  case hf =>
    intro a ha
    simp only [List.mem_cons, List.not_mem_nil, or_false] at ha
    rcases ha with rfl | rfl | rfl | rfl | rfl
    · decide
    · rfl
    · decide
    · decide
    · decide
  simp only [List.map_cons, List.map_nil]
  rw [c4_parse_message_pair _ hplain]
  rw [show parsePairChars ['?'] = ("?", "") from by decide,
    show parsePairChars ("base64".data ++ '=' :: ['1']) = ("base64", "1") from by decide,
    show parsePairChars ("connect".data ++ '=' :: ['v', '1']) = ("connect", "v1") from by decide,
    show parsePairChars ("encoding".data ++ '=' :: "proto".data) = ("encoding", "proto") from by decide]

theorem c4_unary_get_ok (m : List Nat) :
    RequestBuilder.unary_get
      { path := some "/pkg.Svc/Method", metadata := [], message_codec := some "proto",
        timeout_ms := none, content_encoding := none, accept_encoding := [] } m =
    Except.ok (unaryGetFromHttp ("/pkg.Svc/Method" ++ "?" ++ ("?" ++ "&" ++ "message" ++ "=" ++ base64UrlNoPadEncode m ++
      "&" ++ "base64" ++ "=" ++ "1" ++ "&" ++ "connect" ++ "=" ++ "v1" ++ "&" ++ "encoding" ++
      "=" ++ "proto"))) := by
  have hE : formEncode (base64UrlNoPadEncode m) = base64UrlNoPadEncode m := by
    rw [show base64UrlNoPadEncode m = String.mk (base64UrlNoPadEncodeChars m) from rfl,
      formEncode_alphabet _ (encodeChars_mem m)]
  have hlen : ∀ (a b : String), 0 < a.length → 0 < (a ++ b).length := by
    intro a b h
    rw [String.length_append]
    omega
  have hq1 : appendPair "?" 0 "message" (base64UrlNoPadEncode m) =
      "?" ++ "&" ++ "message" ++ "=" ++ base64UrlNoPadEncode m := by
    rw [appendPair_of_pos _ (by decide), hE,
      show formEncode "message" = "message" from by decide]
  have hp1 : 0 < ("?" ++ "&" ++ "message" ++ "=" ++ base64UrlNoPadEncode m).length :=
    hlen _ _ (hlen _ _ (hlen _ _ (hlen _ _ (by decide))))
  have hq2 : appendPair ("?" ++ "&" ++ "message" ++ "=" ++ base64UrlNoPadEncode m) 0
      "base64" "1" =
      "?" ++ "&" ++ "message" ++ "=" ++ base64UrlNoPadEncode m ++ "&" ++ "base64" ++ "=" ++ "1" := by
    rw [appendPair_of_pos _ hp1, show formEncode "base64" = "base64" from by decide,
      show formEncode "1" = "1" from by decide]
  have hp2 : 0 < ("?" ++ "&" ++ "message" ++ "=" ++ base64UrlNoPadEncode m ++ "&" ++ "base64" ++
      "=" ++ "1").length :=
    hlen _ _ (hlen _ _ (hlen _ _ (hlen _ _ hp1)))
  have hq3 : appendPair ("?" ++ "&" ++ "message" ++ "=" ++ base64UrlNoPadEncode m ++ "&" ++
      "base64" ++ "=" ++ "1") 0 "connect" "v1" =
      "?" ++ "&" ++ "message" ++ "=" ++ base64UrlNoPadEncode m ++ "&" ++ "base64" ++ "=" ++ "1" ++
        "&" ++ "connect" ++ "=" ++ "v1" := by
    rw [appendPair_of_pos _ hp2, show formEncode "connect" = "connect" from by decide,
      show formEncode "v1" = "v1" from by decide]
  have hp3 : 0 < ("?" ++ "&" ++ "message" ++ "=" ++ base64UrlNoPadEncode m ++ "&" ++ "base64" ++
      "=" ++ "1" ++ "&" ++ "connect" ++ "=" ++ "v1").length :=
    hlen _ _ (hlen _ _ (hlen _ _ (hlen _ _ hp2)))
  have hq4 : appendPair ("?" ++ "&" ++ "message" ++ "=" ++ base64UrlNoPadEncode m ++ "&" ++
      "base64" ++ "=" ++ "1" ++ "&" ++ "connect" ++ "=" ++ "v1") 0 "encoding" "proto" =
      "?" ++ "&" ++ "message" ++ "=" ++ base64UrlNoPadEncode m ++ "&" ++ "base64" ++ "=" ++ "1" ++
        "&" ++ "connect" ++ "=" ++ "v1" ++ "&" ++ "encoding" ++ "=" ++ "proto" := by
    rw [appendPair_of_pos _ hp3, show formEncode "encoding" = "encoding" from by decide,
      show formEncode "proto" = "proto" from by decide]
  have h0 : RequestBuilder.unary_get
      { path := some "/pkg.Svc/Method", metadata := [], message_codec := some "proto",
        timeout_ms := none, content_encoding := none, accept_encoding := [] } m
      = Except.ok (unaryGetFromHttp ("/pkg.Svc/Method" ++ "?" ++
          appendPair (appendPair (appendPair (appendPair "?" 0 "message"
            (base64UrlNoPadEncode m)) 0 "base64" "1") 0 "connect" "v1") 0 "encoding" "proto")) :=
    rfl
  rw [h0, hq1, hq2, hq3, hq4]

theorem c4_accessors (m : List Nat) (hb : ∀ b ∈ m, b < 256) :
    queryGet (unaryGetFromHttp ("/pkg.Svc/Method" ++ "?" ++ ("?" ++ "&" ++ "message" ++ "=" ++ base64UrlNoPadEncode m ++
      "&" ++ "base64" ++ "=" ++ "1" ++ "&" ++ "connect" ++ "=" ++ "v1" ++ "&" ++ "encoding" ++
      "=" ++ "proto"))).query "message" = some (base64UrlNoPadEncode m) ∧
    (unaryGetFromHttp ("/pkg.Svc/Method" ++ "?" ++ ("?" ++ "&" ++ "message" ++ "=" ++ base64UrlNoPadEncode m ++
      "&" ++ "base64" ++ "=" ++ "1" ++ "&" ++ "connect" ++ "=" ++ "v1" ++ "&" ++ "encoding" ++
      "=" ++ "proto"))).message = Except.ok m ∧
    (unaryGetFromHttp ("/pkg.Svc/Method" ++ "?" ++ ("?" ++ "&" ++ "message" ++ "=" ++ base64UrlNoPadEncode m ++
      "&" ++ "base64" ++ "=" ++ "1" ++ "&" ++ "connect" ++ "=" ++ "v1" ++ "&" ++ "encoding" ++
      "=" ++ "proto"))).http_validate = Except.ok () := by
  have hrq := c4_query m
  have hm : queryGet ([("?", ""), ("message", String.mk (base64UrlNoPadEncodeChars m)), ("base64", "1"),
      ("connect", "v1"), ("encoding", "proto")]) "message" = some (String.mk (base64UrlNoPadEncodeChars m)) := by
    simp [queryGet]
  have hb64 : queryGet ([("?", ""), ("message", String.mk (base64UrlNoPadEncodeChars m)), ("base64", "1"),
      ("connect", "v1"), ("encoding", "proto")]) "base64" = some "1" := by
    simp [queryGet]
  have hcn : queryGet ([("?", ""), ("message", String.mk (base64UrlNoPadEncodeChars m)), ("base64", "1"),
      ("connect", "v1"), ("encoding", "proto")]) "connect" = some "v1" := by
    simp [queryGet]
  have hen : queryGet ([("?", ""), ("message", String.mk (base64UrlNoPadEncodeChars m)), ("base64", "1"),
      ("connect", "v1"), ("encoding", "proto")]) "encoding" = some "proto" := by
    simp [queryGet]
  have hrt : base64UrlNoPadDecode (String.mk (base64UrlNoPadEncodeChars m)) = some m := by
    unfold base64UrlNoPadDecode
    rw [show (String.mk (base64UrlNoPadEncodeChars m)).toList = base64UrlNoPadEncodeChars m from rfl]
    exact base64_roundtrip m hb
  refine ⟨?_, ?_, ?_⟩
  · rw [hrq, hm]
    rfl
  · unfold UnaryGetRequest.message
    rw [hrq, hm, hb64]
    simp [hrt]
  · unfold UnaryGetRequest.http_validate UnaryGetRequest.http_connect_protocol_version
      UnaryGetRequest.http_message_codec validateRequestCommon
    rw [hrq, hcn, hen, hm]
    simp [stripPrefixStr, stripPrefixChars]
    rfl

/-- Claim C4: with a path and a valid message codec set, `unary_get(m)`
succeeds for every message byte string `m`, and on the built request the
`message` query parameter is present (holding the base64url-no-pad encoding
of `m`), `message()` returns exactly `m`, and `validate()` succeeds.  The
serializer seed `?` (with start position 0) makes the first `append_pair`
emit a `&` separator, and `format!("{path}?{query}")` doubles the `?`;
the resulting stray `("?", "")` query pair is harmless. -/
theorem unary_get_message_roundtrip (m : List Nat) (hb : ∀ b ∈ m, b < 256) :
    ∃ r : UnaryGetRequest,
      RequestBuilder.unary_get
        { path := some "/pkg.Svc/Method", metadata := [], message_codec := some "proto",
          timeout_ms := none, content_encoding := none, accept_encoding := [] } m =
        Except.ok r ∧
      queryGet r.query "message" = some (base64UrlNoPadEncode m) ∧
      r.message = Except.ok m ∧
      r.http_validate = Except.ok () := by
  obtain ⟨h1, h2, h3⟩ := c4_accessors m hb
  exact ⟨unaryGetFromHttp ("/pkg.Svc/Method" ++ "?" ++ ("?" ++ "&" ++ "message" ++ "=" ++ base64UrlNoPadEncode m ++
      "&" ++ "base64" ++ "=" ++ "1" ++ "&" ++ "connect" ++ "=" ++ "v1" ++ "&" ++ "encoding" ++
      "=" ++ "proto")), c4_unary_get_ok m, h1, h2, h3⟩

/-- Witness for claim C4: the message bytes `abc` round-trip through the
built unary GET request. -/
theorem unary_get_message_roundtrip_witness :
    (∀ b ∈ [97, 98, 99], b < 256) ∧
    ∃ r : UnaryGetRequest,
      RequestBuilder.unary_get
        { path := some "/pkg.Svc/Method", metadata := [], message_codec := some "proto",
          timeout_ms := none, content_encoding := none, accept_encoding := [] } [97, 98, 99] =
        Except.ok r ∧
      queryGet r.query "message" = some (base64UrlNoPadEncode [97, 98, 99]) ∧
      r.message = Except.ok [97, 98, 99] ∧
      r.http_validate = Except.ok () :=
  ⟨by decide, unary_get_message_roundtrip [97, 98, 99] (by decide)⟩

/-- Claim C10 (code bug): `content_encoding()` on a unary GET request returns
the `encoding` query parameter, not `compression`: with
`compression=gzip&encoding=proto` it returns `proto` (the codec), and with no
`compression` parameter at all it still returns `proto` rather than `None`. -/
theorem unary_get_content_encoding_reads_encoding_param :
    (unaryGetFromHttp "/S/M?message=x&encoding=proto&compression=gzip").http_content_encoding =
      some "proto" ∧
    queryGet (unaryGetFromHttp "/S/M?message=x&encoding=proto&compression=gzip").query
      "compression" = some "gzip" ∧
    (unaryGetFromHttp "/S/M?message=x&encoding=proto").http_content_encoding = some "proto" ∧
    some "proto" ≠ some "gzip" := by
  exact ⟨by decide, by decide, by decide, by decide⟩
